import Mathlib

/-!
Shallow embedding of the `delta` tensor core (src/src/tensor/{shape,storage,tensor}.rs).

Modelling conventions:
- Rust `f32` is modelled by `ℚ` (exact arithmetic); the claims proved here concern
  shapes, indexing, error conditions and element placement, none of which depend on
  rounding.  Division is total on `ℚ` (`x / 0 = 0`), mirroring the code's absence of
  any divide-by-zero guard.
- Rust panics (`assert_eq!` failures and out-of-bounds slice accesses) are modelled by
  `Except TensorError`, with one error constructor per panic site, carrying the same
  diagnostic data the panic message carries.
- `Vec<usize>` / `Vec<f32>` become `List Nat` / `List ℚ`; slice indexing `xs[i]`
  becomes `List.get?` (failure = panic) or `List.getD` where the index is known good.
-/

namespace Delta

/-- `Shape` (shape.rs): the dimensions of a tensor. -/
structure Shape where
  dims : List Nat
deriving Repr, DecidableEq

/-- `Shape::new` (shape.rs): construct from a list of dimensions. -/
def Shape.new (dims : List Nat) : Shape := ⟨dims⟩

/-- `Shape::ndim` (shape.rs): number of dimensions. -/
def Shape.ndim (s : Shape) : Nat := s.dims.length

/-- `Shape::nelems` (shape.rs): product of all dimensions (empty product = 1). -/
def Shape.nelems (s : Shape) : Nat := s.dims.foldr (· * ·) 1

/-- Row-major strides of a dimension list, as computed by `Shape::strides`
(shape.rs lines 73-83): empty dims give empty strides; otherwise the last stride
is 1 and `strides[i] = strides[i+1] * dims[i+1]`.  The Rust loop fills the vector
from the right; this structural recursion computes the same values. -/
def stridesList : List Nat → List Nat
  | [] => []
  | [_] => [1]
  | _ :: d :: ds =>
    let rest := stridesList (d :: ds)
    (rest.headD 1 * d) :: rest

/-- `Shape::strides` (shape.rs). -/
def Shape.strides (s : Shape) : List Nat := stridesList s.dims

/-- `Storage` (storage.rs): flat buffer of scalar elements. -/
structure Storage where
  data : List ℚ
deriving Repr, DecidableEq

/-- `Storage::zeros` (storage.rs). -/
def Storage.zeros (size : Nat) : Storage := ⟨List.replicate size 0⟩

/-- `Storage::from_vec` (storage.rs): wrap an existing buffer. -/
def Storage.from_vec (data : List ℚ) : Storage := ⟨data⟩

/-- `Storage::len` (storage.rs). -/
def Storage.len (s : Storage) : Nat := s.data.length

/-- The panic conditions of tensor.rs, one constructor per `assert` / unchecked
access, each carrying the diagnostic values the panic message reports. -/
inductive TensorError where
  /-- `from_vec`: data length vs. shape element count (both reported). -/
  | lenMismatch (actual : Nat) (dims : List Nat) (expected : Nat) : TensorError
  /-- element-wise ops: the two differing shapes (both reported). -/
  | shapeMismatch (a b : List Nat) : TensorError
  /-- `linear_index`: expected vs. supplied number of indices. -/
  | indexArity (expected actual : Nat) : TensorError
  /-- `matmul`: an operand's rank is not 2 (the actual rank reported). -/
  | rankError (actual : Nat) : TensorError
  /-- `matmul`: inner dimensions disagree (all four dimensions reported). -/
  | dimMismatch (m k1 k2 n : Nat) : TensorError
  /-- unchecked slice access out of bounds (fatal in the Rust code). -/
  | outOfBounds (idx len : Nat) : TensorError
deriving Repr, DecidableEq

/-- `Tensor` (tensor.rs): storage + shape + cached strides + base offset. -/
structure Tensor where
  storage : Storage
  shape : Shape
  strides : List Nat
  offset : Nat
deriving Repr, DecidableEq

/-- `Tensor::zeros` (tensor.rs lines 28-38). -/
def Tensor.zeros (dims : List Nat) : Tensor :=
  let shape := Shape.new dims
  { storage := Storage.zeros shape.nelems
    shape := shape
    strides := shape.strides
    offset := 0 }

/-- `Tensor::from_vec` (tensor.rs lines 50-68): asserts
`data.len() == shape.nelems()`, reporting actual length, dims and expected count. -/
def Tensor.from_vec (data : List ℚ) (dims : List Nat) : Except TensorError Tensor :=
  let shape := Shape.new dims
  if data.length = shape.nelems then
    .ok { storage := Storage.from_vec data
          shape := shape
          strides := shape.strides
          offset := 0 }
  else
    .error (.lenMismatch data.length dims shape.nelems)

/-- `Tensor::shape` (tensor.rs): the dimension list. -/
def Tensor.shapeList (t : Tensor) : List Nat := t.shape.dims

/-- `Tensor::ndim` (tensor.rs). -/
def Tensor.ndim (t : Tensor) : Nat := t.shape.ndim

/-- `Tensor::nelems` (tensor.rs). -/
def Tensor.nelems (t : Tensor) : Nat := t.shape.nelems

/-- `Tensor::linear_index` (tensor.rs lines 88-102): asserts
`indices.len() == ndim()`, then returns `offset + Σ indices[i]*strides[i]`. -/
def Tensor.linear_index (t : Tensor) (indices : List Nat) : Except TensorError Nat :=
  if indices.length = t.ndim then
    .ok (t.offset + (List.zipWith (· * ·) indices t.strides).sum)
  else
    .error (.indexArity t.ndim indices.length)

/-- `Tensor::get` (tensor.rs lines 108-111): `storage.as_slice()[linear_index]`,
an unchecked access that panics when out of bounds. -/
def Tensor.get (t : Tensor) (indices : List Nat) : Except TensorError ℚ :=
  match t.linear_index indices with
  | .error e => .error e
  | .ok idx =>
    match t.storage.data.get? idx with
    | some v => .ok v
    | none => .error (.outOfBounds idx t.storage.len)

/-- `Tensor::set` (tensor.rs lines 117-120): write through `linear_index` into
storage; the only in-place mutation, modelled by returning the updated tensor. -/
def Tensor.set (t : Tensor) (indices : List Nat) (value : ℚ) :
    Except TensorError Tensor :=
  match t.linear_index indices with
  | .error e => .error e
  | .ok idx =>
    if idx < t.storage.data.length then
      .ok { t with storage := ⟨t.storage.data.set idx value⟩ }
    else
      .error (.outOfBounds idx t.storage.len)

/-- `Tensor::add` (tensor.rs lines 126-144): asserts equal shapes, zips the two
buffers with `+`, rebuilds through `from_vec`. -/
def Tensor.add (t other : Tensor) : Except TensorError Tensor :=
  if t.shapeList = other.shapeList then
    Tensor.from_vec (List.zipWith (· + ·) t.storage.data other.storage.data) t.shapeList
  else
    .error (.shapeMismatch t.shapeList other.shapeList)

/-- `Tensor::sub` (tensor.rs lines 147-165). -/
def Tensor.sub (t other : Tensor) : Except TensorError Tensor :=
  if t.shapeList = other.shapeList then
    Tensor.from_vec (List.zipWith (· - ·) t.storage.data other.storage.data) t.shapeList
  else
    .error (.shapeMismatch t.shapeList other.shapeList)

/-- `Tensor::mul` (tensor.rs lines 168-186): Hadamard product. -/
def Tensor.mul (t other : Tensor) : Except TensorError Tensor :=
  if t.shapeList = other.shapeList then
    Tensor.from_vec (List.zipWith (· * ·) t.storage.data other.storage.data) t.shapeList
  else
    .error (.shapeMismatch t.shapeList other.shapeList)

/-- `Tensor::div` (tensor.rs lines 189-207): element-wise division; the code has
no divide-by-zero guard, mirrored here by total division on `ℚ`. -/
def Tensor.div (t other : Tensor) : Except TensorError Tensor :=
  if t.shapeList = other.shapeList then
    Tensor.from_vec (List.zipWith (· / ·) t.storage.data other.storage.data) t.shapeList
  else
    .error (.shapeMismatch t.shapeList other.shapeList)

/-- `Tensor::scalar_add` (tensor.rs lines 210-213). -/
def Tensor.scalar_add (t : Tensor) (scalar : ℚ) : Except TensorError Tensor :=
  Tensor.from_vec (t.storage.data.map (· + scalar)) t.shapeList

/-- `Tensor::scalar_mul` (tensor.rs lines 216-219). -/
def Tensor.scalar_mul (t : Tensor) (scalar : ℚ) : Except TensorError Tensor :=
  Tensor.from_vec (t.storage.data.map (· * scalar)) t.shapeList

/-- `Tensor::neg` (tensor.rs lines 222-225). -/
def Tensor.neg (t : Tensor) : Except TensorError Tensor :=
  Tensor.from_vec (t.storage.data.map (fun x => -x)) t.shapeList

/-- `Tensor::matmul` (tensor.rs lines 227-260): rank checks, inner-dimension
check, then the triple-nested accumulation loop writing into `zeros [m, n]`. -/
def Tensor.matmul (t other : Tensor) : Except TensorError Tensor :=
  if t.ndim ≠ 2 then .error (.rankError t.ndim)
  else if other.ndim ≠ 2 then .error (.rankError other.ndim)
  else
    let m := t.shapeList.getD 0 0
    let k1 := t.shapeList.getD 1 0
    let k2 := other.shapeList.getD 0 0
    let n := other.shapeList.getD 1 0
    if k1 ≠ k2 then .error (.dimMismatch m k1 k2 n)
    else
      (List.range m).foldlM (fun acc i =>
        (List.range n).foldlM (fun acc2 j => do
          let sum ← (List.range k1).foldlM (fun s k => do
            let a ← t.get [i, k]
            let b ← other.get [k, j]
            pure (s + a * b)) (0 : ℚ)
          acc2.set [i, j] sum) acc)
        (Tensor.zeros [m, n])

/-- The scalar rendering of the Display base case (`write!(f, "{:.4}", x)` in
tensor.rs line 271).  The concrete 4-decimal digit string of an `f32` is
abstracted to an opaque-but-executable serialization of the exact scalar; none
of the formatting claims depend on the digits of an individual element. -/
def fmtScalar (x : ℚ) : String := toString x

/-- Debug rendering of a dimension list, as `{:?}` on `Vec<usize>` prints it:
`[2, 3]`. -/
def fmtDims (l : List Nat) : String :=
  "[" ++ String.intercalate ", " (l.map toString) ++ "]"

/-- `Tensor::fmt_recursive` (tensor.rs lines 263-312).  The writer state is the
accumulated string; the `&mut usize` offset is threaded explicitly, so the
result is the pair (text written, offset after the call).  The Rust base-case
guard is `dim == ndim()`; every reachable call has `dim ≤ ndim` (Display starts
at 0 and each recursion adds 1), so the `≥` spelling below agrees with the
source on all reachable inputs while making termination on `ndim - dim`
manifest. -/
def fmtRec (t : Tensor) (dim off : Nat) : String × Nat :=
  if h : dim ≥ t.ndim then
    (fmtScalar (t.storage.data.getD off 0), off + 1)
  else
    let size := t.shapeList.getD dim 0
    let res := (List.range size).foldl (fun st i =>
      if size > 6 ∧ i = 3 then
        let skip := size - 6
        (st.1 ++ "..., ", st.2 + skip * t.strides.getD dim 0)
      else if size > 6 ∧ i > 3 ∧ i < size - 3 then
        st
      else
        let child := fmtRec t (dim + 1) st.2
        let str2 := st.1 ++ child.1
        if i < size - 1 then
          let str3 := str2 ++ ", "
          if dim < t.ndim - 1 then
            (str3 ++ "\n" ++ String.mk (List.replicate (dim + 1) ' '), child.2)
          else
            (str3, child.2)
        else
          (str2, child.2)) ("", off)
    ("[" ++ res.1 ++ "]", res.2)
termination_by t.ndim - dim
decreasing_by simp at h; omega

/-- The `Display` impl for `Tensor` (tensor.rs lines 315-321):
`Tensor(<nested>, shape=<dims>)`. -/
def Tensor.display (t : Tensor) : String :=
  "Tensor(" ++ (fmtRec t 0 0).1 ++ ", shape=" ++ fmtDims t.shapeList ++ ")"

/-- The separator `fmt_recursive` writes between sibling elements at `dim`:
always `", "`, followed for non-innermost dimensions by a newline and an indent
of `dim + 1` spaces. -/
def sepStr (t : Tensor) (dim : Nat) : String :=
  if dim < t.ndim - 1 then ", \n" ++ String.mk (List.replicate (dim + 1) ' ') else ", "

/-- The sequence of `c` consecutive child renderings starting at a given
offset: each child is `fmt_recursive` at `dim + 1`, threading the offset. -/
def fmtSeq (t : Tensor) (dim : Nat) : Nat → Nat → List String × Nat
  | 0, off => ([], off)
  | c + 1, off =>
    let child := fmtRec t (dim + 1) off
    let rest := fmtSeq t dim c child.2
    (child.1 :: rest.1, rest.2)

/-- Join a list of rendered elements with a separator between neighbours. -/
def joinSep (sep : String) : List String → String
  | [] => ""
  | [x] => x
  | x :: y :: xs => x ++ sep ++ joinSep sep (y :: xs)

/-- Join a list of rendered elements with a separator after every element
(the writer's state midway through a dimension, before the last element). -/
def sepAll (sep : String) : List String → String
  | [] => ""
  | x :: xs => x ++ sep ++ sepAll sep xs

/-- The validity invariant of a `Tensor` (spec §3): storage length equals the
shape's element count, the cached strides equal the strides derived from the
shape, and the base offset is 0. -/
def Tensor.valid (t : Tensor) : Prop :=
  t.storage.len = t.shape.nelems ∧ t.strides = t.shape.strides ∧ t.offset = 0

instance (t : Tensor) : Decidable t.valid := by
  unfold Tensor.valid; infer_instance

/-! ### C9: operator spellings (tensor.rs lines 325-488)

Rust offers each arithmetic operator on every owned/borrowed operand
combination; ownership is immaterial in the embedding, so each `impl` block
becomes one definition whose body is the delegation the Rust body performs. -/

/-- `impl Neg for Tensor` (owned). -/
def negOwn (t : Tensor) : Except TensorError Tensor := Tensor.neg t

/-- `impl Neg for &Tensor` (borrowed). -/
def negRef (t : Tensor) : Except TensorError Tensor := Tensor.neg t

/-- `impl Add<Tensor> for Tensor`. -/
def addOO (a b : Tensor) : Except TensorError Tensor := Tensor.add a b

/-- `impl Add<&Tensor> for Tensor`. -/
def addOR (a b : Tensor) : Except TensorError Tensor := Tensor.add a b

/-- `impl Add<Tensor> for &Tensor`. -/
def addRO (a b : Tensor) : Except TensorError Tensor := Tensor.add a b

/-- `impl Add<&Tensor> for &Tensor`. -/
def addRR (a b : Tensor) : Except TensorError Tensor := Tensor.add a b

/-- `impl Sub<Tensor> for Tensor`. -/
def subOO (a b : Tensor) : Except TensorError Tensor := Tensor.sub a b

/-- `impl Sub<&Tensor> for Tensor`. -/
def subOR (a b : Tensor) : Except TensorError Tensor := Tensor.sub a b

/-- `impl Sub<Tensor> for &Tensor`. -/
def subRO (a b : Tensor) : Except TensorError Tensor := Tensor.sub a b

/-- `impl Sub<&Tensor> for &Tensor`. -/
def subRR (a b : Tensor) : Except TensorError Tensor := Tensor.sub a b

/-- `impl Mul<Tensor> for Tensor` (element-wise). -/
def mulOO (a b : Tensor) : Except TensorError Tensor := Tensor.mul a b

/-- `impl Mul<&Tensor> for Tensor`. -/
def mulOR (a b : Tensor) : Except TensorError Tensor := Tensor.mul a b

/-- `impl Mul<Tensor> for &Tensor`. -/
def mulRO (a b : Tensor) : Except TensorError Tensor := Tensor.mul a b

/-- `impl Mul<&Tensor> for &Tensor`. -/
def mulRR (a b : Tensor) : Except TensorError Tensor := Tensor.mul a b

/-- `impl Div<Tensor> for Tensor`. -/
def divOO (a b : Tensor) : Except TensorError Tensor := Tensor.div a b

/-- `impl Div<&Tensor> for Tensor`. -/
def divOR (a b : Tensor) : Except TensorError Tensor := Tensor.div a b

/-- `impl Div<Tensor> for &Tensor`. -/
def divRO (a b : Tensor) : Except TensorError Tensor := Tensor.div a b

/-- `impl Div<&Tensor> for &Tensor`. -/
def divRR (a b : Tensor) : Except TensorError Tensor := Tensor.div a b

/-- `impl Mul<f32> for Tensor` (tensor * scalar, owned). -/
def mulScalarO (t : Tensor) (s : ℚ) : Except TensorError Tensor := t.scalar_mul s

/-- `impl Mul<f32> for &Tensor` (tensor * scalar, borrowed). -/
def mulScalarR (t : Tensor) (s : ℚ) : Except TensorError Tensor := t.scalar_mul s

/-- `impl Mul<Tensor> for f32` (scalar * tensor, owned). -/
def scalarMulO (s : ℚ) (t : Tensor) : Except TensorError Tensor := t.scalar_mul s

/-- `impl Mul<&Tensor> for f32` (scalar * tensor, borrowed). -/
def scalarMulR (s : ℚ) (t : Tensor) : Except TensorError Tensor := t.scalar_mul s

/-- All multi-indices of a dimension list, enumerated in lexicographic order
(first coordinate outermost, ascending): the enumeration order named by the
round-trip property.  `allIndices [] = [[]]` (the single scalar index). -/
def allIndices : List Nat → List (List Nat)
  | [] => [[]]
  | d :: ds => (List.range d).flatMap (fun i => (allIndices ds).map (i :: ·))

/-- The element of a row-major matrix buffer at row `i`, column `j`, where
`cols` is the row length: position `i * cols + j`. -/
def entry2 (t : Tensor) (cols i j : Nat) : ℚ :=
  t.storage.data.getD (i * cols + j) 0

/-- The accumulated dot product `matmul` computes for output cell `(i, j)`:
starting from 0, add `self[i,k] * other[k,j]` for `k = 0, …, kd-1`, exactly in
the order of the innermost loop (`kd` = shared dimension, `n` = column count of
`other`). -/
def dotAt (t u : Tensor) (kd n i j : Nat) : ℚ :=
  (List.range kd).foldl (fun s k => s + entry2 t kd i k * entry2 u n k j) 0

instance {ε α : Type} [DecidableEq ε] [DecidableEq α] : DecidableEq (Except ε α) :=
  fun x y =>
    match x, y with
    | .ok a, .ok b =>
      if h : a = b then isTrue (by rw [h]) else isFalse (fun hc => h (by injection hc))
    | .ok _, .error _ => isFalse (fun hc => Except.noConfusion hc)
    | .error _, .ok _ => isFalse (fun hc => Except.noConfusion hc)
    | .error e, .error f =>
      if h : e = f then isTrue (by rw [h]) else isFalse (fun hc => h (by injection hc))


/-! ### Basic lemmas about shapes and strides -/

theorem Shape.nelems_cons (d : Nat) (ds : List Nat) :
    Shape.nelems ⟨d :: ds⟩ = d * Shape.nelems ⟨ds⟩ := rfl

/-- The head stride of a non-empty dimension list is the element count of the
remaining dimensions. -/
theorem stridesList_cons (d : Nat) (ds : List Nat) :
    stridesList (d :: ds) = Shape.nelems ⟨ds⟩ :: stridesList ds := by
  induction ds generalizing d with
  | nil => rfl
  | cons e ds2 ih =>
    show (List.headD (stridesList (e :: ds2)) 1 * e) :: stridesList (e :: ds2) = _
    rw [ih e]
    simp [Shape.nelems_cons, Nat.mul_comm]

theorem stridesList_length (l : List Nat) : (stridesList l).length = l.length := by
  induction l with
  | nil => rfl
  | cons d ds ih => rw [stridesList_cons]; simp [ih]

theorem stridesList_getLast (l : List Nat) (h : l ≠ []) :
    (stridesList l).getLast? = some 1 := by
  induction l with
  | nil => exact absurd rfl h
  | cons d ds ih =>
    rw [stridesList_cons]
    cases ds with
    | nil => rfl
    | cons e ds2 =>
      have h2 := ih (by simp)
      rw [stridesList_cons] at h2 ⊢
      rw [List.getLast?_cons_cons]
      exact h2

theorem stridesList_getD (l : List Nat) (i : Nat) (h : i + 1 < l.length) :
    (stridesList l).getD i 0 =
      (stridesList l).getD (i + 1) 0 * l.getD (i + 1) 0 := by
  induction l generalizing i with
  | nil => simp at h
  | cons d ds ih =>
    rw [stridesList_cons]
    cases i with
    | zero =>
      cases ds with
      | nil => simp at h
      | cons e ds2 =>
        rw [stridesList_cons]
        simp [Shape.nelems_cons, Nat.mul_comm]
    | succ i2 =>
      simp only [List.getD_cons_succ]
      exact ih i2 (by simpa using h)

/-! ### C5: from_vec length validation -/

/-- C5: `from_vec(data, dims)` fails with a ShapeMismatch condition exactly when
`data.len()` differs from the `nelems` of the shape built from `dims`, the
failure reports both the actual and the expected element counts (a 3-element
buffer against shape [2,3] reports actual 3 and expected 6), and on success the
supplied buffer becomes the Tensor's storage unmodified. -/
theorem from_vec_spec :
    (∀ (data : List ℚ) (dims : List Nat),
        data.length ≠ (Shape.new dims).nelems →
        Tensor.from_vec data dims =
          .error (.lenMismatch data.length dims (Shape.new dims).nelems)) ∧
    (∀ (data : List ℚ) (dims : List Nat) (t : Tensor),
        Tensor.from_vec data dims = .ok t → t.storage.data = data) ∧
    (∀ (data : List ℚ) (dims : List Nat),
        data.length = (Shape.new dims).nelems →
        ∃ t, Tensor.from_vec data dims = .ok t) ∧
    Tensor.from_vec [1, 2, 3] [2, 3] = .error (.lenMismatch 3 [2, 3] 6) := by
  refine ⟨?_, ?_, ?_, rfl⟩
  · intro data dims h
    simp [Tensor.from_vec, h]
  · intro data dims t h
    unfold Tensor.from_vec at h
    by_cases hl : data.length = (Shape.new dims).nelems
    · simp only [hl, if_pos rfl] at h
      cases h
      rfl
    · simp [hl] at h
  · intro data dims h
    refine ⟨⟨Storage.from_vec data, Shape.new dims, (Shape.new dims).strides, 0⟩, ?_⟩
    unfold Tensor.from_vec
    rw [if_pos h]

/-- Witness for C5 at concrete inputs. -/
theorem from_vec_spec_witness :
    Tensor.from_vec [(5 : ℚ)] [2] = .error (.lenMismatch 1 [2] 2) ∧
    (⟨⟨[(5 : ℚ), 6]⟩, ⟨[2]⟩, [1], 0⟩ : Tensor).storage.data = [5, 6] ∧
    ∃ t, Tensor.from_vec [(5 : ℚ), 6] [2] = .ok t :=
  ⟨from_vec_spec.1 [5] [2] (by decide),
   from_vec_spec.2.1 [5, 6] [2] ⟨⟨[5, 6]⟩, ⟨[2]⟩, [1], 0⟩ rfl,
   from_vec_spec.2.2.1 [5, 6] [2] (by decide)⟩

/-! ### C6: linear_index and row-major strides -/

/-- C6: `linear_index(indices)` fails with an IndexArityError exactly when
`indices.len()` differs from `ndim()`; otherwise it returns
`offset + Σ indices[i] * strides[i]`.  The strides are row-major: for non-empty
dims the last stride is 1 and `strides[i] = strides[i+1] * dims[i+1]`, and for
empty dims the strides are empty; concretely, shape [2,3] has strides [3,1],
index [1,2] maps to 5 and [0,1] maps to 1. -/
theorem linear_index_spec :
    (∀ (t : Tensor) (indices : List Nat), indices.length ≠ t.ndim →
        t.linear_index indices = .error (.indexArity t.ndim indices.length)) ∧
    (∀ (t : Tensor) (indices : List Nat), indices.length = t.ndim →
        t.linear_index indices =
          .ok (t.offset + (List.zipWith (· * ·) indices t.strides).sum)) ∧
    (∀ l : List Nat, l ≠ [] →
        (stridesList l).getLast? = some 1 ∧
        ∀ i, i + 1 < l.length →
          (stridesList l).getD i 0 =
            (stridesList l).getD (i + 1) 0 * l.getD (i + 1) 0) ∧
    stridesList [] = [] ∧
    stridesList [2, 3] = [3, 1] ∧
    (Tensor.zeros [2, 3]).linear_index [1, 2] = .ok 5 ∧
    (Tensor.zeros [2, 3]).linear_index [0, 1] = .ok 1 := by
  refine ⟨?_, ?_, ?_, rfl, rfl, rfl, rfl⟩
  · intro t indices h
    simp [Tensor.linear_index, h]
  · intro t indices h
    simp [Tensor.linear_index, h]
  · intro l h
    exact ⟨stridesList_getLast l h, fun i hi => stridesList_getD l i hi⟩

/-- Witness for C6 at concrete inputs. -/
theorem linear_index_spec_witness :
    (Tensor.zeros [2, 3]).linear_index [1] = .error (.indexArity 2 1) ∧
    (Tensor.zeros [2, 3]).linear_index [1, 2] =
      .ok (0 + (List.zipWith (· * ·) [1, 2] [3, 1]).sum) ∧
    ((stridesList [4, 5]).getLast? = some 1 ∧
      (stridesList [4, 5]).getD 0 0 =
        (stridesList [4, 5]).getD 1 0 * [4, 5].getD 1 0) :=
  ⟨linear_index_spec.1 (Tensor.zeros [2, 3]) [1] (by decide),
   linear_index_spec.2.1 (Tensor.zeros [2, 3]) [1, 2] (by decide),
   (linear_index_spec.2.2.1 [4, 5] (by decide)).1,
   (linear_index_spec.2.2.1 [4, 5] (by decide)).2 0 (by decide)⟩

/-! ### Characterisation of `from_vec`, and validity of every constructor -/

theorem from_vec_ok_intro (data : List ℚ) (dims : List Nat)
    (h : data.length = Shape.nelems ⟨dims⟩) :
    Tensor.from_vec data dims = .ok ⟨⟨data⟩, ⟨dims⟩, stridesList dims, 0⟩ := by
  simp only [Tensor.from_vec, Shape.new]
  rw [if_pos h]
  rfl

theorem from_vec_ok_elim {data : List ℚ} {dims : List Nat} {t : Tensor}
    (h : Tensor.from_vec data dims = .ok t) :
    data.length = Shape.nelems ⟨dims⟩ ∧
      t = ⟨⟨data⟩, ⟨dims⟩, stridesList dims, 0⟩ := by
  unfold Tensor.from_vec at h
  by_cases hl : data.length = (Shape.new dims).nelems
  · rw [if_pos hl] at h
    cases h
    exact ⟨hl, rfl⟩
  · rw [if_neg hl] at h
    cases h

theorem from_vec_ok_valid {data : List ℚ} {dims : List Nat} {t : Tensor}
    (h : Tensor.from_vec data dims = .ok t) : t.valid := by
  obtain ⟨hl, rfl⟩ := from_vec_ok_elim h
  exact ⟨hl, rfl, rfl⟩

theorem zeros_valid (dims : List Nat) : (Tensor.zeros dims).valid := by
  refine ⟨?_, rfl, rfl⟩
  simp [Tensor.zeros, Storage.zeros, Storage.len]

theorem set_ok_valid {t : Tensor} {ix : List Nat} {v : ℚ} {t2 : Tensor}
    (hv : t.valid) (h : t.set ix v = .ok t2) : t2.valid := by
  unfold Tensor.set at h
  cases hli : t.linear_index ix with
  | error e => rw [hli] at h; cases h
  | ok idx =>
    rw [hli] at h
    dsimp only at h
    by_cases hb : idx < t.storage.data.length
    · rw [if_pos hb] at h
      cases h
      exact ⟨by simpa [Storage.len] using hv.1, hv.2⟩
    · rw [if_neg hb] at h
      cases h

theorem ok_bind {ε α β : Type} (a : α) (f : α → Except ε β) :
    (Except.ok a >>= f) = f a := rfl

theorem error_bind {ε α β : Type} (e : ε) (f : α → Except ε β) :
    ((Except.error e : Except ε α) >>= f) = .error e := rfl

/-- `Except` bind inversion: a successful bind splits into two successes. -/
theorem except_bind_ok {ε α β : Type} {x : Except ε α} {f : α → Except ε β} {b : β}
    (h : (x >>= f) = .ok b) : ∃ a, x = .ok a ∧ f a = .ok b := by
  cases x with
  | error e => simp [Bind.bind, Except.bind] at h
  | ok a => exact ⟨a, rfl, by simpa [Bind.bind, Except.bind] using h⟩

/-- A property preserved by every successful step of an `Except` fold is
preserved by the whole fold. -/
theorem foldlM_except_preserve {ε α β : Type} (P : β → Prop)
    (step : β → α → Except ε β)
    (hstep : ∀ b a b2, P b → step b a = .ok b2 → P b2) :
    ∀ (l : List α) (init r : β), P init → l.foldlM step init = .ok r → P r := by
  intro l
  induction l with
  | nil =>
    intro init r hinit h
    simp only [List.foldlM_nil] at h
    cases h
    exact hinit
  | cons a l ih =>
    intro init r hinit h
    rw [List.foldlM_cons] at h
    obtain ⟨b, hb, hrest⟩ := except_bind_ok h
    exact ih b r (hstep init a b hinit hb) hrest

theorem matmul_ok_valid {t u r : Tensor} (h : t.matmul u = .ok r) : r.valid := by
  unfold Tensor.matmul at h
  by_cases h1 : t.ndim ≠ 2
  · rw [if_pos h1] at h; cases h
  · rw [if_neg h1] at h
    by_cases h2 : u.ndim ≠ 2
    · rw [if_pos h2] at h; cases h
    · rw [if_neg h2] at h
      by_cases h3 : t.shapeList.getD 1 0 ≠ u.shapeList.getD 0 0
      · rw [if_pos h3] at h; cases h
      · rw [if_neg h3] at h
        refine foldlM_except_preserve Tensor.valid _ ?_ _ _ r (zeros_valid _) h
        intro acc i acc2 hacc hstep
        refine foldlM_except_preserve Tensor.valid _ ?_ _ _ acc2 hacc hstep
        intro b j b2 hb hstep2
        obtain ⟨s, _, hset⟩ := except_bind_ok hstep2
        exact set_ok_valid hb hset

theorem add_ok_valid {t u r : Tensor} (h : t.add u = .ok r) : r.valid := by
  unfold Tensor.add at h
  by_cases hs : t.shapeList = u.shapeList
  · rw [if_pos hs] at h; exact from_vec_ok_valid h
  · rw [if_neg hs] at h; cases h

theorem sub_ok_valid {t u r : Tensor} (h : t.sub u = .ok r) : r.valid := by
  unfold Tensor.sub at h
  by_cases hs : t.shapeList = u.shapeList
  · rw [if_pos hs] at h; exact from_vec_ok_valid h
  · rw [if_neg hs] at h; cases h

theorem mul_ok_valid {t u r : Tensor} (h : t.mul u = .ok r) : r.valid := by
  unfold Tensor.mul at h
  by_cases hs : t.shapeList = u.shapeList
  · rw [if_pos hs] at h; exact from_vec_ok_valid h
  · rw [if_neg hs] at h; cases h

theorem div_ok_valid {t u r : Tensor} (h : t.div u = .ok r) : r.valid := by
  unfold Tensor.div at h
  by_cases hs : t.shapeList = u.shapeList
  · rw [if_pos hs] at h; exact from_vec_ok_valid h
  · rw [if_neg hs] at h; cases h

/-! ### C3: the validity invariant is preserved by every operation -/

/-- C3: every Tensor produced by a public constructor or operation (`zeros`,
`from_vec` on success, `add`, `sub`, `mul`, `div`, `scalar_add`, `scalar_mul`,
`neg`, `matmul`, and `set` on an existing valid Tensor) satisfies the validity
invariant: storage length equals the Shape's nelems, the stored strides equal
the strides derived from the Shape, and the base offset is 0. -/
theorem tensor_ops_valid :
    (∀ dims, (Tensor.zeros dims).valid) ∧
    (∀ (data : List ℚ) dims t, Tensor.from_vec data dims = .ok t → t.valid) ∧
    (∀ t u r : Tensor, t.add u = .ok r → r.valid) ∧
    (∀ t u r : Tensor, t.sub u = .ok r → r.valid) ∧
    (∀ t u r : Tensor, t.mul u = .ok r → r.valid) ∧
    (∀ t u r : Tensor, t.div u = .ok r → r.valid) ∧
    (∀ (t : Tensor) (s : ℚ) (r : Tensor), t.scalar_add s = .ok r → r.valid) ∧
    (∀ (t : Tensor) (s : ℚ) (r : Tensor), t.scalar_mul s = .ok r → r.valid) ∧
    (∀ t r : Tensor, t.neg = .ok r → r.valid) ∧
    (∀ t u r : Tensor, t.matmul u = .ok r → r.valid) ∧
    (∀ (t : Tensor) (ix : List Nat) (v : ℚ) (t2 : Tensor),
        t.valid → t.set ix v = .ok t2 → t2.valid) :=
  ⟨zeros_valid,
   fun _ _ _ h => from_vec_ok_valid h,
   fun _ _ _ h => add_ok_valid h,
   fun _ _ _ h => sub_ok_valid h,
   fun _ _ _ h => mul_ok_valid h,
   fun _ _ _ h => div_ok_valid h,
   fun _ _ _ h => from_vec_ok_valid h,
   fun _ _ _ h => from_vec_ok_valid h,
   fun _ _ h => from_vec_ok_valid h,
   fun _ _ _ h => matmul_ok_valid h,
   fun _ _ _ _ hv h => set_ok_valid hv h⟩

/-- Witness for C3 at concrete inputs. -/
theorem tensor_ops_valid_witness :
    (Tensor.zeros [2, 3]).valid ∧
    (⟨⟨[1, 2]⟩, ⟨[2]⟩, [1], 0⟩ : Tensor).valid ∧
    (⟨⟨[2, 4]⟩, ⟨[2]⟩, [1], 0⟩ : Tensor).valid ∧
    (⟨⟨[7, 10, 15, 22]⟩, ⟨[2, 2]⟩, [2, 1], 0⟩ : Tensor).valid ∧
    (⟨⟨[1, 9]⟩, ⟨[2]⟩, [1], 0⟩ : Tensor).valid :=
  ⟨tensor_ops_valid.1 [2, 3],
   tensor_ops_valid.2.1 [1, 2] [2] _ (by decide),
   tensor_ops_valid.2.2.1 ⟨⟨[1, 2]⟩, ⟨[2]⟩, [1], 0⟩ ⟨⟨[1, 2]⟩, ⟨[2]⟩, [1], 0⟩ _
     (by simp [Tensor.add, Tensor.from_vec, Tensor.shapeList, Shape.new, Shape.nelems,
           Storage.from_vec, Shape.strides, stridesList]
         norm_num),
   tensor_ops_valid.2.2.2.2.2.2.2.2.2.1
     ⟨⟨[1, 2, 3, 4]⟩, ⟨[2, 2]⟩, [2, 1], 0⟩ ⟨⟨[1, 2, 3, 4]⟩, ⟨[2, 2]⟩, [2, 1], 0⟩ _
     (by simp [Tensor.matmul, Tensor.ndim, Shape.ndim, Tensor.shapeList,
           Tensor.zeros, Shape.new, Shape.nelems, Shape.strides, stridesList,
           Storage.zeros, Storage.from_vec, Storage.len, List.range_succ, Tensor.get,
           Tensor.set, Tensor.linear_index, ok_bind, error_bind]
         norm_num),
   tensor_ops_valid.2.2.2.2.2.2.2.2.2.2
     ⟨⟨[1, 2]⟩, ⟨[2]⟩, [1], 0⟩ [1] 9 _ (by decide) (by decide)⟩

/-! ### C4: element-wise binary operations -/

/-- For two valid, equal-shaped tensors, rebuilding from a zipped buffer
succeeds and reproduces the left operand's shape, strides and zero offset. -/
theorem from_vec_zip_ok (f : ℚ → ℚ → ℚ) {t u : Tensor}
    (ht : t.valid) (hu : u.valid) (hs : t.shapeList = u.shapeList) :
    Tensor.from_vec (List.zipWith f t.storage.data u.storage.data) t.shapeList =
      .ok ⟨⟨List.zipWith f t.storage.data u.storage.data⟩, t.shape, t.strides, 0⟩ := by
  have hlt : t.storage.data.length = Shape.nelems ⟨t.shapeList⟩ := ht.1
  have hlu : u.storage.data.length = Shape.nelems ⟨t.shapeList⟩ := by
    rw [hs]; exact hu.1
  have hz : (List.zipWith f t.storage.data u.storage.data).length =
      Shape.nelems ⟨t.shapeList⟩ := by
    rw [List.length_zipWith, hlt, hlu, Nat.min_self]
  rw [from_vec_ok_intro _ _ hz]
  have hshape : (⟨t.shapeList⟩ : Shape) = t.shape := rfl
  have hstr : stridesList t.shapeList = t.strides := ht.2.1.symm
  rw [hshape, hstr]

/-- C4: each element-wise binary operation (`add`, `sub`, `mul`, `div`) fails
with a ShapeMismatch reporting both shapes if and only if the operand shapes
differ; on equal shapes it returns a new Tensor of the same shape whose buffer
is the position-wise combination of the operands' buffers, and `div` applies no
divide-by-zero guard: it succeeds (with total division on the exact-scalar
model) even when the divisor buffer contains zeros. -/
theorem elementwise_ops_spec :
    (∀ t u : Tensor, t.shapeList ≠ u.shapeList →
        t.add u = .error (.shapeMismatch t.shapeList u.shapeList) ∧
        t.sub u = .error (.shapeMismatch t.shapeList u.shapeList) ∧
        t.mul u = .error (.shapeMismatch t.shapeList u.shapeList) ∧
        t.div u = .error (.shapeMismatch t.shapeList u.shapeList)) ∧
    (∀ t u : Tensor, t.valid → u.valid → t.shapeList = u.shapeList →
        t.add u = .ok ⟨⟨List.zipWith (· + ·) t.storage.data u.storage.data⟩,
          t.shape, t.strides, 0⟩ ∧
        t.sub u = .ok ⟨⟨List.zipWith (· - ·) t.storage.data u.storage.data⟩,
          t.shape, t.strides, 0⟩ ∧
        t.mul u = .ok ⟨⟨List.zipWith (· * ·) t.storage.data u.storage.data⟩,
          t.shape, t.strides, 0⟩ ∧
        t.div u = .ok ⟨⟨List.zipWith (· / ·) t.storage.data u.storage.data⟩,
          t.shape, t.strides, 0⟩) := by
  constructor
  · intro t u hs
    refine ⟨?_, ?_, ?_, ?_⟩ <;>
      simp only [Tensor.add, Tensor.sub, Tensor.mul, Tensor.div, if_neg hs]
  · intro t u ht hu hs
    refine ⟨?_, ?_, ?_, ?_⟩ <;>
      simp only [Tensor.add, Tensor.sub, Tensor.mul, Tensor.div, if_pos hs] <;>
      exact from_vec_zip_ok _ ht hu hs

/-- Witness for C4 at concrete inputs. -/
theorem elementwise_ops_spec_witness :
    ((⟨⟨[1, 2]⟩, ⟨[2]⟩, [1], 0⟩ : Tensor).add ⟨⟨[1, 2, 3]⟩, ⟨[3]⟩, [1], 0⟩ =
        .error (.shapeMismatch [2] [3]) ∧
      (⟨⟨[1, 2]⟩, ⟨[2]⟩, [1], 0⟩ : Tensor).sub ⟨⟨[1, 2, 3]⟩, ⟨[3]⟩, [1], 0⟩ =
        .error (.shapeMismatch [2] [3]) ∧
      (⟨⟨[1, 2]⟩, ⟨[2]⟩, [1], 0⟩ : Tensor).mul ⟨⟨[1, 2, 3]⟩, ⟨[3]⟩, [1], 0⟩ =
        .error (.shapeMismatch [2] [3]) ∧
      (⟨⟨[1, 2]⟩, ⟨[2]⟩, [1], 0⟩ : Tensor).div ⟨⟨[1, 2, 3]⟩, ⟨[3]⟩, [1], 0⟩ =
        .error (.shapeMismatch [2] [3])) ∧
    ((⟨⟨[1, 2]⟩, ⟨[2]⟩, [1], 0⟩ : Tensor).add ⟨⟨[3, 0]⟩, ⟨[2]⟩, [1], 0⟩ =
        .ok ⟨⟨List.zipWith (· + ·) [1, 2] [3, 0]⟩, ⟨[2]⟩, [1], 0⟩ ∧
      (⟨⟨[1, 2]⟩, ⟨[2]⟩, [1], 0⟩ : Tensor).sub ⟨⟨[3, 0]⟩, ⟨[2]⟩, [1], 0⟩ =
        .ok ⟨⟨List.zipWith (· - ·) [1, 2] [3, 0]⟩, ⟨[2]⟩, [1], 0⟩ ∧
      (⟨⟨[1, 2]⟩, ⟨[2]⟩, [1], 0⟩ : Tensor).mul ⟨⟨[3, 0]⟩, ⟨[2]⟩, [1], 0⟩ =
        .ok ⟨⟨List.zipWith (· * ·) [1, 2] [3, 0]⟩, ⟨[2]⟩, [1], 0⟩ ∧
      (⟨⟨[1, 2]⟩, ⟨[2]⟩, [1], 0⟩ : Tensor).div ⟨⟨[3, 0]⟩, ⟨[2]⟩, [1], 0⟩ =
        .ok ⟨⟨List.zipWith (· / ·) [1, 2] [3, 0]⟩, ⟨[2]⟩, [1], 0⟩) :=
  ⟨elementwise_ops_spec.1 ⟨⟨[1, 2]⟩, ⟨[2]⟩, [1], 0⟩ ⟨⟨[1, 2, 3]⟩, ⟨[3]⟩, [1], 0⟩
     (by decide),
   elementwise_ops_spec.2 ⟨⟨[1, 2]⟩, ⟨[2]⟩, [1], 0⟩ ⟨⟨[3, 0]⟩, ⟨[2]⟩, [1], 0⟩
     (by decide) (by decide) (by decide)⟩

/-! ### C8: arithmetic identities -/

/-- Rebuilding a valid tensor from its own buffer and shape reproduces it. -/
theorem rebuild_eq {t : Tensor} (ht : t.valid) :
    Tensor.from_vec t.storage.data t.shapeList = .ok t := by
  obtain ⟨⟨data⟩, ⟨dims⟩, str, off⟩ := t
  obtain ⟨h1, h2, h3⟩ := ht
  dsimp only [Tensor.shapeList, Storage.len, Shape.nelems] at h1 h2 h3 ⊢
  subst h2; subst h3
  exact from_vec_ok_intro data dims h1

theorem zip_add_replicate (l : List ℚ) :
    List.zipWith (· + ·) l (List.replicate l.length 0) = l := by
  induction l with
  | nil => rfl
  | cons a l ih =>
    rw [List.length_cons, List.replicate_succ, List.zipWith_cons_cons, add_zero, ih]

/-- C8: for every valid Tensor `t`, the identities hold exactly:
`t.add(zeros_like(t)) == t`, `t.scalar_mul(1) == t`, and `t.neg().neg() == t`,
with equality of the whole result tensor (same shape, element for element). -/
theorem arithmetic_identities (t : Tensor) (ht : t.valid) :
    t.add (Tensor.zeros t.shapeList) = .ok t ∧
    t.scalar_mul 1 = .ok t ∧
    (t.neg >>= Tensor.neg) = .ok t := by
  have h1 : t.storage.data.length = Shape.nelems ⟨t.shapeList⟩ := ht.1
  refine ⟨?_, ?_, ?_⟩
  · unfold Tensor.add
    rw [if_pos (by rfl)]
    show Tensor.from_vec
      (List.zipWith (· + ·) t.storage.data
        (List.replicate (Shape.nelems ⟨t.shapeList⟩) 0)) t.shapeList = _
    rw [← h1, zip_add_replicate]
    exact rebuild_eq ht
  · unfold Tensor.scalar_mul
    have : t.storage.data.map (· * 1) = t.storage.data := by simp
    rw [this]
    exact rebuild_eq ht
  · unfold Tensor.neg
    have hm : (t.storage.data.map fun x => -x).length = Shape.nelems ⟨t.shapeList⟩ := by
      simpa using h1
    rw [from_vec_ok_intro _ _ hm, ok_bind]
    show Tensor.from_vec ((t.storage.data.map fun x => -x).map fun x => -x)
      t.shapeList = _
    have : (t.storage.data.map fun x => -x).map (fun x => -x) = t.storage.data := by
      simp
    rw [this]
    exact rebuild_eq ht

/-- Witness for C8 at a concrete valid tensor. -/
theorem arithmetic_identities_witness :
    (⟨⟨[1, 2]⟩, ⟨[2]⟩, [1], 0⟩ : Tensor).add
        (Tensor.zeros (⟨⟨[1, 2]⟩, ⟨[2]⟩, [1], 0⟩ : Tensor).shapeList) =
      .ok ⟨⟨[1, 2]⟩, ⟨[2]⟩, [1], 0⟩ ∧
    (⟨⟨[1, 2]⟩, ⟨[2]⟩, [1], 0⟩ : Tensor).scalar_mul 1 =
      .ok ⟨⟨[1, 2]⟩, ⟨[2]⟩, [1], 0⟩ ∧
    ((⟨⟨[1, 2]⟩, ⟨[2]⟩, [1], 0⟩ : Tensor).neg >>= Tensor.neg) =
      .ok ⟨⟨[1, 2]⟩, ⟨[2]⟩, [1], 0⟩ :=
  arithmetic_identities ⟨⟨[1, 2]⟩, ⟨[2]⟩, [1], 0⟩ (by decide)

/-- C9: every operator spelling, over every owned/borrowed operand combination,
returns exactly the same result (and hence fails under exactly the same
conditions) as the corresponding named method, and scalar multiplication is
commutative between its two spellings. -/
theorem operator_aliases (a b t : Tensor) (s : ℚ) :
    (negOwn a = a.neg ∧ negRef a = a.neg) ∧
    (addOO a b = a.add b ∧ addOR a b = a.add b ∧
      addRO a b = a.add b ∧ addRR a b = a.add b) ∧
    (subOO a b = a.sub b ∧ subOR a b = a.sub b ∧
      subRO a b = a.sub b ∧ subRR a b = a.sub b) ∧
    (mulOO a b = a.mul b ∧ mulOR a b = a.mul b ∧
      mulRO a b = a.mul b ∧ mulRR a b = a.mul b) ∧
    (divOO a b = a.div b ∧ divOR a b = a.div b ∧
      divRO a b = a.div b ∧ divRR a b = a.div b) ∧
    (mulScalarO t s = t.scalar_mul s ∧ mulScalarR t s = t.scalar_mul s ∧
      scalarMulO s t = t.scalar_mul s ∧ scalarMulR s t = t.scalar_mul s) ∧
    scalarMulO s t = mulScalarO t s ∧ scalarMulR s t = mulScalarR t s :=
  ⟨⟨rfl, rfl⟩, ⟨rfl, rfl, rfl, rfl⟩, ⟨rfl, rfl, rfl, rfl⟩, ⟨rfl, rfl, rfl, rfl⟩,
   ⟨rfl, rfl, rfl, rfl⟩, ⟨rfl, rfl, rfl, rfl⟩, rfl, rfl⟩

/-! ### C10: dimensions containing a zero -/

theorem nelems_zero_of_mem {dims : List Nat} (h : 0 ∈ dims) :
    Shape.nelems ⟨dims⟩ = 0 := by
  induction dims with
  | nil => cases h
  | cons d ds ih =>
    rw [Shape.nelems_cons]
    rcases List.mem_cons.mp h with h0 | h0
    · rw [← h0]; ring
    · rw [ih h0]; ring

theorem valid_data_nil {t : Tensor} (ht : t.valid)
    (h0 : Shape.nelems ⟨t.shapeList⟩ = 0) : t.storage.data = [] := by
  have : t.storage.data.length = 0 := by
    have := ht.1
    rw [Storage.len] at this
    exact this.trans h0
  exact List.length_eq_zero.mp this

theorem from_vec_nil_ok {t : Tensor} (ht : t.valid)
    (h0 : Shape.nelems ⟨t.shapeList⟩ = 0) :
    Tensor.from_vec [] t.shapeList = .ok ⟨⟨[]⟩, t.shape, t.strides, 0⟩ := by
  have h : ([] : List ℚ).length = Shape.nelems ⟨t.shapeList⟩ := by
    rw [h0]; rfl
  rw [from_vec_ok_intro _ _ h]
  have hshape : (⟨t.shapeList⟩ : Shape) = t.shape := rfl
  have hstr : stridesList t.shapeList = t.strides := ht.2.1.symm
  rw [hshape, hstr]

/-- C10: when the dims list contains a zero, `nelems` is 0, `zeros` succeeds
with an empty storage, `from_vec` succeeds exactly when the supplied buffer is
empty, and every element-wise binary or scalar operation between such
equal-shaped valid tensors succeeds, returning an empty tensor of the same
shape. -/
theorem zero_dims_spec (dims : List Nat) (hmem : 0 ∈ dims) :
    Shape.nelems ⟨dims⟩ = 0 ∧
    (Tensor.zeros dims).storage.data = [] ∧
    (∀ data : List ℚ, (∃ t, Tensor.from_vec data dims = .ok t) ↔ data = []) ∧
    (∀ t u : Tensor, t.valid → u.valid → t.shapeList = dims → u.shapeList = dims →
        t.add u = .ok ⟨⟨[]⟩, t.shape, t.strides, 0⟩ ∧
        t.sub u = .ok ⟨⟨[]⟩, t.shape, t.strides, 0⟩ ∧
        t.mul u = .ok ⟨⟨[]⟩, t.shape, t.strides, 0⟩ ∧
        t.div u = .ok ⟨⟨[]⟩, t.shape, t.strides, 0⟩) ∧
    (∀ (t : Tensor) (s : ℚ), t.valid → t.shapeList = dims →
        t.scalar_add s = .ok ⟨⟨[]⟩, t.shape, t.strides, 0⟩ ∧
        t.scalar_mul s = .ok ⟨⟨[]⟩, t.shape, t.strides, 0⟩ ∧
        t.neg = .ok ⟨⟨[]⟩, t.shape, t.strides, 0⟩) := by
  have h0 : Shape.nelems ⟨dims⟩ = 0 := nelems_zero_of_mem hmem
  refine ⟨h0, ?_, ?_, ?_, ?_⟩
  · show List.replicate (Shape.nelems ⟨dims⟩) (0 : ℚ) = []
    rw [h0]; rfl
  · intro data
    constructor
    · rintro ⟨t, ht⟩
      have := (from_vec_ok_elim ht).1
      rw [h0] at this
      exact List.length_eq_zero.mp this
    · rintro rfl
      exact ⟨_, from_vec_ok_intro [] dims (by rw [h0]; rfl)⟩
  · intro t u ht hu hts hus
    have hs : t.shapeList = u.shapeList := hts.trans hus.symm
    have h0t : Shape.nelems ⟨t.shapeList⟩ = 0 := by rw [hts]; exact h0
    have h0u : Shape.nelems ⟨u.shapeList⟩ = 0 := by rw [hus]; exact h0
    have hdt : t.storage.data = [] := valid_data_nil ht h0t
    have hdu : u.storage.data = [] := valid_data_nil hu h0u
    refine ⟨?_, ?_, ?_, ?_⟩ <;>
      simp only [Tensor.add, Tensor.sub, Tensor.mul, Tensor.div, if_pos hs,
        hdt, hdu, List.zipWith_nil_left] <;>
      exact from_vec_nil_ok ht h0t
  · intro t s ht hts
    have h0t : Shape.nelems ⟨t.shapeList⟩ = 0 := by rw [hts]; exact h0
    have hdt : t.storage.data = [] := valid_data_nil ht h0t
    refine ⟨?_, ?_, ?_⟩ <;>
      simp only [Tensor.scalar_add, Tensor.scalar_mul, Tensor.neg, hdt,
        List.map_nil] <;>
      exact from_vec_nil_ok ht h0t

/-- Witness for C10 at concrete inputs. -/
theorem zero_dims_spec_witness :
    Shape.nelems ⟨[2, 0]⟩ = 0 ∧
    (Tensor.zeros [2, 0]).storage.data = [] ∧
    ((∃ t, Tensor.from_vec ([] : List ℚ) [2, 0] = .ok t) ↔ ([] : List ℚ) = []) ∧
    ((⟨⟨[]⟩, ⟨[2, 0]⟩, [0, 1], 0⟩ : Tensor).add ⟨⟨[]⟩, ⟨[2, 0]⟩, [0, 1], 0⟩ =
        .ok ⟨⟨[]⟩, ⟨[2, 0]⟩, [0, 1], 0⟩ ∧
      (⟨⟨[]⟩, ⟨[2, 0]⟩, [0, 1], 0⟩ : Tensor).sub ⟨⟨[]⟩, ⟨[2, 0]⟩, [0, 1], 0⟩ =
        .ok ⟨⟨[]⟩, ⟨[2, 0]⟩, [0, 1], 0⟩ ∧
      (⟨⟨[]⟩, ⟨[2, 0]⟩, [0, 1], 0⟩ : Tensor).mul ⟨⟨[]⟩, ⟨[2, 0]⟩, [0, 1], 0⟩ =
        .ok ⟨⟨[]⟩, ⟨[2, 0]⟩, [0, 1], 0⟩ ∧
      (⟨⟨[]⟩, ⟨[2, 0]⟩, [0, 1], 0⟩ : Tensor).div ⟨⟨[]⟩, ⟨[2, 0]⟩, [0, 1], 0⟩ =
        .ok ⟨⟨[]⟩, ⟨[2, 0]⟩, [0, 1], 0⟩) ∧
    ((⟨⟨[]⟩, ⟨[2, 0]⟩, [0, 1], 0⟩ : Tensor).scalar_add 5 =
        .ok ⟨⟨[]⟩, ⟨[2, 0]⟩, [0, 1], 0⟩ ∧
      (⟨⟨[]⟩, ⟨[2, 0]⟩, [0, 1], 0⟩ : Tensor).scalar_mul 5 =
        .ok ⟨⟨[]⟩, ⟨[2, 0]⟩, [0, 1], 0⟩ ∧
      (⟨⟨[]⟩, ⟨[2, 0]⟩, [0, 1], 0⟩ : Tensor).neg =
        .ok ⟨⟨[]⟩, ⟨[2, 0]⟩, [0, 1], 0⟩) :=
  ⟨(zero_dims_spec [2, 0] (by decide)).1,
   (zero_dims_spec [2, 0] (by decide)).2.1,
   (zero_dims_spec [2, 0] (by decide)).2.2.1 [],
   (zero_dims_spec [2, 0] (by decide)).2.2.2.1 ⟨⟨[]⟩, ⟨[2, 0]⟩, [0, 1], 0⟩
     ⟨⟨[]⟩, ⟨[2, 0]⟩, [0, 1], 0⟩ (by decide) (by decide) rfl rfl,
   (zero_dims_spec [2, 0] (by decide)).2.2.2.2 ⟨⟨[]⟩, ⟨[2, 0]⟩, [0, 1], 0⟩ 5
     (by decide) rfl⟩

/-! ### C2: flat-buffer round trip through lexicographic index enumeration -/

theorem allIndices_length {dims ix : List Nat} (h : ix ∈ allIndices dims) :
    ix.length = dims.length := by
  induction dims generalizing ix with
  | nil =>
    simp only [allIndices, List.mem_singleton] at h
    subst h; rfl
  | cons d ds ih =>
    simp only [allIndices, List.mem_flatMap, List.mem_map] at h
    obtain ⟨i, _, ix2, hix2, rfl⟩ := h
    simp [ih hix2]

theorem lin_cons (i : Nat) (ix : List Nat) (d : Nat) (ds : List Nat) :
    (List.zipWith (· * ·) (i :: ix) (stridesList (d :: ds))).sum =
      i * Shape.nelems ⟨ds⟩ + (List.zipWith (· * ·) ix (stridesList ds)).sum := by
  rw [stridesList_cons, List.zipWith_cons_cons, List.sum_cons]

theorem range_mul_flatMap (d P : Nat) :
    (List.range d).flatMap (fun i => (List.range P).map (fun p => i * P + p)) =
      List.range (d * P) := by
  induction d with
  | zero => simp
  | succ d ih =>
    rw [List.range_succ, List.flatMap_append, ih, Nat.succ_mul, List.range_add]
    simp

/-- Mapping each multi-index to its row-major linear offset enumerates
`0, 1, …, nelems-1` in order. -/
theorem allIndices_map_lin (dims : List Nat) :
    (allIndices dims).map
        (fun ix => (List.zipWith (· * ·) ix (stridesList dims)).sum) =
      List.range (Shape.nelems ⟨dims⟩) := by
  induction dims with
  | nil => rfl
  | cons d ds ih =>
    show ((List.range d).flatMap (fun i => (allIndices ds).map (i :: ·))).map _ = _
    rw [List.map_flatMap]
    have inner : ∀ i : Nat,
        ((allIndices ds).map (i :: ·)).map
            (fun ix => (List.zipWith (· * ·) ix (stridesList (d :: ds))).sum) =
          (List.range (Shape.nelems ⟨ds⟩)).map
            (fun p => i * Shape.nelems ⟨ds⟩ + p) := by
      intro i
      rw [List.map_map, ← ih, List.map_map]
      apply List.map_congr_left
      intro ix _
      exact lin_cons i ix d ds
    rw [funext inner, range_mul_flatMap, Shape.nelems_cons]

theorem get_ok_of_lt {data : List ℚ} {dims ix : List Nat}
    (hlen : ix.length = dims.length)
    (hlt : (List.zipWith (· * ·) ix (stridesList dims)).sum < data.length) :
    Tensor.get ⟨⟨data⟩, ⟨dims⟩, stridesList dims, 0⟩ ix =
      .ok (data.getD ((List.zipWith (· * ·) ix (stridesList dims)).sum) 0) := by
  unfold Tensor.get Tensor.linear_index
  dsimp only [Tensor.ndim, Shape.ndim, Storage.len]
  rw [if_pos hlen, Nat.zero_add]
  dsimp only
  rw [List.get?_eq_get hlt]
  dsimp only
  rw [List.getD_eq_getElem?_getD, List.getElem?_eq_getElem hlt]
  rfl

theorem range_map_getD (l : List ℚ) :
    (List.range l.length).map
        (fun p => (Except.ok (l.getD p 0) : Except TensorError ℚ)) =
      l.map Except.ok := by
  induction l with
  | nil => rfl
  | cons a l ih =>
    rw [List.length_cons, List.range_succ_eq_map, List.map_cons, List.map_map,
      List.map_cons]
    congr 1

/-- C2: for every dims list and every flat buffer whose length equals the
product of dims, building a Tensor with `from_vec` and reading back every valid
multi-index in lexicographic order yields exactly the original buffer's
elements in their original order. -/
theorem roundtrip_spec (data : List ℚ) (dims : List Nat)
    (h : data.length = Shape.nelems ⟨dims⟩) :
    ∃ t, Tensor.from_vec data dims = .ok t ∧
      (allIndices dims).map t.get = data.map Except.ok := by
  refine ⟨_, from_vec_ok_intro data dims h, ?_⟩
  have step1 : (allIndices dims).map
      (Tensor.get ⟨⟨data⟩, ⟨dims⟩, stridesList dims, 0⟩) =
      (allIndices dims).map (fun ix =>
        Except.ok (data.getD ((List.zipWith (· * ·) ix (stridesList dims)).sum) 0)) := by
    apply List.map_congr_left
    intro ix hix
    have hmem : (List.zipWith (· * ·) ix (stridesList dims)).sum ∈
        List.range (Shape.nelems ⟨dims⟩) := by
      rw [← allIndices_map_lin dims]
      exact List.mem_map_of_mem _ hix
    exact get_ok_of_lt (allIndices_length hix)
      (by rw [h]; exact List.mem_range.mp hmem)
  have step2 : ((allIndices dims).map
      (fun ix => (List.zipWith (· * ·) ix (stridesList dims)).sum)).map
      (fun p => (Except.ok (data.getD p 0) : Except TensorError ℚ)) =
      data.map Except.ok := by
    rw [allIndices_map_lin dims, ← h]
    exact range_map_getD data
  rw [List.map_map] at step2
  exact step1.trans step2

/-- Witness for C2 at a concrete buffer and shape. -/
theorem roundtrip_spec_witness :
    ∃ t, Tensor.from_vec [1, 2, 3, 4, 5, 6] [2, 3] = .ok t ∧
      (allIndices [2, 3]).map t.get = [1, 2, 3, 4, 5, 6].map Except.ok :=
  roundtrip_spec [1, 2, 3, 4, 5, 6] [2, 3] (by decide)

/-! ### C1: matmul -/

theorem ndim_eq_shapeList_length (t : Tensor) : t.ndim = t.shapeList.length := rfl

theorem two_dim_pos_lt {p q i j : Nat} (hi : i < p) (hj : j < q) :
    i * q + j < p * q := by
  calc i * q + j < i * q + q := by omega
    _ = (i + 1) * q := by ring
    _ ≤ p * q := Nat.mul_le_mul_right q (by omega)

theorem valid_two_dim_len {t : Tensor} {p q : Nat} (ht : t.valid)
    (hs : t.shapeList = [p, q]) : t.storage.data.length = p * q := by
  have h := ht.1
  rw [Storage.len] at h
  rw [h]
  show t.shape.nelems = p * q
  rw [Shape.nelems]
  show (t.shapeList).foldr (· * ·) 1 = p * q
  rw [hs]
  show p * (q * 1) = p * q
  ring

theorem valid_two_dim_strides {t : Tensor} {p q : Nat} (ht : t.valid)
    (hs : t.shapeList = [p, q]) : t.strides = [q, 1] := by
  have h := ht.2.1
  rw [h]
  show stridesList t.shapeList = [q, 1]
  rw [hs, stridesList_cons]
  simp [Shape.nelems, stridesList]

/-- Reading a 2-D valid tensor at an in-range index pair returns the row-major
buffer element. -/
theorem get2_ok {t : Tensor} {p q i j : Nat} (ht : t.valid)
    (hs : t.shapeList = [p, q]) (hi : i < p) (hj : j < q) :
    t.get [i, j] = .ok (entry2 t q i j) := by
  have hnd : t.ndim = 2 := by rw [ndim_eq_shapeList_length, hs]; rfl
  have hstr := valid_two_dim_strides ht hs
  have hoff := ht.2.2
  have hlen := valid_two_dim_len ht hs
  have hlt : i * q + j < t.storage.data.length := by
    rw [hlen]; exact two_dim_pos_lt hi hj
  unfold Tensor.get Tensor.linear_index
  rw [if_pos (by rw [hnd]; rfl), hstr, hoff]
  have hsum : 0 + (List.zipWith (· * ·) [i, j] [q, 1]).sum = i * q + j := by
    simp [List.zipWith, List.sum_cons]
  rw [hsum]
  dsimp only
  rw [List.get?_eq_get hlt]
  dsimp only
  rw [entry2, List.getD_eq_getElem?_getD, List.getElem?_eq_getElem hlt]
  rfl

/-- Writing a 2-D valid tensor at an in-range index pair sets the row-major
buffer position and leaves all other fields unchanged. -/
theorem set2_ok {t : Tensor} {p q i j : Nat} (v : ℚ) (ht : t.valid)
    (hs : t.shapeList = [p, q]) (hi : i < p) (hj : j < q) :
    t.set [i, j] v =
      .ok ⟨⟨t.storage.data.set (i * q + j) v⟩, t.shape, t.strides, t.offset⟩ := by
  have hnd : t.ndim = 2 := by rw [ndim_eq_shapeList_length, hs]; rfl
  have hstr := valid_two_dim_strides ht hs
  have hoff := ht.2.2
  have hlen := valid_two_dim_len ht hs
  have hlt : i * q + j < t.storage.data.length := by
    rw [hlen]; exact two_dim_pos_lt hi hj
  unfold Tensor.set Tensor.linear_index
  rw [if_pos (by rw [hnd]; rfl), hstr, hoff]
  have hsum : 0 + (List.zipWith (· * ·) [i, j] [q, 1]).sum = i * q + j := by
    simp [List.zipWith, List.sum_cons]
  rw [hsum]
  dsimp only
  rw [if_pos hlt]

theorem getD_set (l : List ℚ) (q p : Nat) (v : ℚ) :
    (l.set q v).getD p 0 = if q = p ∧ q < l.length then v else l.getD p 0 := by
  rw [List.getD_eq_getElem?_getD, List.getElem?_set, List.getD_eq_getElem?_getD]
  by_cases h1 : q = p
  · subst h1
    by_cases h2 : q < l.length
    · rw [if_pos rfl, if_pos h2, if_pos ⟨rfl, h2⟩]
      rfl
    · rw [if_pos rfl, if_neg h2, if_neg (by tauto),
        List.getElem?_eq_none (by omega)]
  · rw [if_neg h1, if_neg (by tauto)]

theorem foldl_length_preserved {α : Type} (step : List ℚ → α → List ℚ)
    (hstep : ∀ d a, (step d a).length = d.length) :
    ∀ (l : List α) (d : List ℚ), (l.foldl step d).length = d.length := by
  intro l
  induction l with
  | nil => intro d; rfl
  | cons a l ih => intro d; rw [List.foldl_cons, ih, hstep]

/-- The innermost accumulation loop of `matmul` returns the dot-product fold. -/
theorem inner_fold_ok {t u : Tensor} {m kd n : Nat} (ht : t.valid) (hu : u.valid)
    (hts : t.shapeList = [m, kd]) (hus : u.shapeList = [kd, n])
    {i j : Nat} (hi : i < m) (hj : j < n) :
    ∀ c, c ≤ kd → ∀ s0 : ℚ,
    (List.range c).foldlM (fun s k => do
        let a ← t.get [i, k]
        let b ← u.get [k, j]
        pure (s + a * b)) s0 =
      .ok ((List.range c).foldl
        (fun s k => s + entry2 t kd i k * entry2 u n k j) s0) := by
  intro c
  induction c with
  | zero => intro _ s0; rfl
  | succ c ih =>
    intro hc s0
    rw [List.range_succ, List.foldlM_append, ih (by omega) s0, ok_bind]
    simp only [List.foldlM_cons, List.foldlM_nil]
    rw [get2_ok ht hts hi (by omega), ok_bind,
      get2_ok hu hus (by omega) hj, ok_bind, List.foldl_append]
    rfl

/-- The middle loop of `matmul` (over output columns `j`) performs, on the
accumulator's buffer, exactly the row of `set`s at positions `i*n + j`. -/
theorem row_fold_eq {t u : Tensor} {m kd n : Nat} (ht : t.valid) (hu : u.valid)
    (hts : t.shapeList = [m, kd]) (hus : u.shapeList = [kd, n])
    {i : Nat} (hi : i < m) :
    ∀ c, c ≤ n → ∀ acc : Tensor, acc.valid → acc.shapeList = [m, n] →
    (List.range c).foldlM (fun acc2 j => do
        let sum ← (List.range kd).foldlM (fun s k => do
          let a ← t.get [i, k]
          let b ← u.get [k, j]
          pure (s + a * b)) (0 : ℚ)
        acc2.set [i, j] sum) acc =
      .ok ⟨⟨(List.range c).foldl
            (fun d j => d.set (i * n + j) (dotAt t u kd n i j))
            acc.storage.data⟩,
          acc.shape, acc.strides, acc.offset⟩ := by
  intro c
  induction c with
  | zero => intro _ acc _ _; rfl
  | succ c ih =>
    intro hc acc hacc haccs
    rw [List.range_succ, List.foldlM_append, ih (by omega) acc hacc haccs, ok_bind]
    simp only [List.foldlM_cons, List.foldlM_nil]
    rw [inner_fold_ok ht hu hts hus hi (show c < n by omega) kd le_rfl 0, ok_bind]
    have hlen2 : ((List.range c).foldl
        (fun d j => d.set (i * n + j) (dotAt t u kd n i j))
        acc.storage.data).length = acc.storage.data.length :=
      foldl_length_preserved (fun d j => d.set (i * n + j) (dotAt t u kd n i j))
        (fun d a => List.length_set d _ _) (List.range c) acc.storage.data
    have hacc2 : (⟨⟨(List.range c).foldl
        (fun d j => d.set (i * n + j) (dotAt t u kd n i j))
        acc.storage.data⟩,
        acc.shape, acc.strides, acc.offset⟩ : Tensor).valid := by
      refine ⟨?_, hacc.2.1, hacc.2.2⟩
      show ((List.range c).foldl
        (fun d j => d.set (i * n + j) (dotAt t u kd n i j))
        acc.storage.data).length = acc.shape.nelems
      rw [hlen2]
      exact hacc.1
    have hacc2s : (⟨⟨(List.range c).foldl
        (fun d j => d.set (i * n + j) (dotAt t u kd n i j))
        acc.storage.data⟩,
        acc.shape, acc.strides, acc.offset⟩ : Tensor).shapeList = [m, n] := haccs
    rw [set2_ok _ hacc2 hacc2s hi (show c < n by omega)]
    rw [List.foldl_append, ok_bind]
    rfl

/-- The outer loop of `matmul` (over output rows `i`), characterised as a
nested fold of buffer `set`s starting from the zero tensor. -/
theorem outer_fold_eq {t u : Tensor} {m kd n : Nat} (ht : t.valid) (hu : u.valid)
    (hts : t.shapeList = [m, kd]) (hus : u.shapeList = [kd, n]) :
    ∀ c, c ≤ m →
    (List.range c).foldlM (fun acc i =>
        (List.range n).foldlM (fun acc2 j => do
          let sum ← (List.range kd).foldlM (fun s k => do
            let a ← t.get [i, k]
            let b ← u.get [k, j]
            pure (s + a * b)) (0 : ℚ)
          acc2.set [i, j] sum) acc)
        (Tensor.zeros [m, n]) =
      .ok ⟨⟨(List.range c).foldl (fun d i =>
            (List.range n).foldl
              (fun d2 j => d2.set (i * n + j) (dotAt t u kd n i j)) d)
            (Tensor.zeros [m, n]).storage.data⟩,
          Shape.new [m, n], stridesList [m, n], 0⟩ := by
  intro c
  induction c with
  | zero => intro _; rfl
  | succ c ih =>
    intro hc
    rw [List.range_succ, List.foldlM_append, ih (by omega), ok_bind]
    simp only [List.foldlM_cons, List.foldlM_nil]
    have hpres : ((List.range c).foldl (fun d i =>
        (List.range n).foldl
          (fun d2 j => d2.set (i * n + j) (dotAt t u kd n i j)) d)
        (Tensor.zeros [m, n]).storage.data).length =
        (Tensor.zeros [m, n]).storage.data.length :=
      foldl_length_preserved _
        (fun d a => foldl_length_preserved _
          (fun d2 b => List.length_set d2 _ _) _ d) _ _
    have haccv : (⟨⟨(List.range c).foldl (fun d i =>
        (List.range n).foldl
          (fun d2 j => d2.set (i * n + j) (dotAt t u kd n i j)) d)
        (Tensor.zeros [m, n]).storage.data⟩,
        Shape.new [m, n], stridesList [m, n], 0⟩ : Tensor).valid := by
      refine ⟨?_, rfl, rfl⟩
      show ((List.range c).foldl (fun d i =>
        (List.range n).foldl
          (fun d2 j => d2.set (i * n + j) (dotAt t u kd n i j)) d)
        (Tensor.zeros [m, n]).storage.data).length = (Shape.new [m, n]).nelems
      rw [hpres]
      show (List.replicate (Shape.new [m, n]).nelems (0 : ℚ)).length = _
      rw [List.length_replicate]
    rw [row_fold_eq ht hu hts hus (show c < m by omega) n le_rfl _ haccv rfl,
      ok_bind, List.foldl_append]
    rfl

/-- Reading back a row of `set`s: positions `i*n + j` for `j < c` hold the
written values, all other positions are untouched. -/
theorem getD_row_update {n i : Nat} (f : Nat → ℚ) :
    ∀ c, ∀ (d : List ℚ) (p : Nat), p < d.length →
      ((List.range c).foldl (fun d2 j => d2.set (i * n + j) (f j)) d).getD p 0 =
        if i * n ≤ p ∧ p < i * n + c then f (p - i * n) else d.getD p 0 := by
  intro c
  induction c with
  | zero =>
    intro d p hp
    rw [if_neg (by omega), List.range_zero, List.foldl_nil]
  | succ c ih =>
    intro d p hp
    rw [List.range_succ, List.foldl_append, List.foldl_cons, List.foldl_nil,
      getD_set]
    have hlen : ((List.range c).foldl
        (fun d2 j => d2.set (i * n + j) (f j)) d).length = d.length :=
      foldl_length_preserved _ (fun d2 a => List.length_set d2 _ _) _ _
    by_cases h1 : i * n + c = p
    · rw [if_pos ⟨h1, by rw [hlen]; omega⟩, if_pos (by omega)]
      congr 1
      omega
    · rw [if_neg (by tauto), ih d p hp]
      by_cases h2 : i * n ≤ p ∧ p < i * n + c
      · rw [if_pos h2, if_pos (by omega)]
      · rw [if_neg h2, if_neg (by omega)]

/-- Reading back the full nested update: every cell `(i, j)` of a row `i < c`
holds its dot product; rows not yet processed are untouched. -/
theorem getD_outer_update {m kd n : Nat} (t u : Tensor) :
    ∀ c, c ≤ m → ∀ (d : List ℚ), d.length = m * n → ∀ i j, i < m → j < n →
      ((List.range c).foldl (fun d2 i2 =>
          (List.range n).foldl
            (fun d3 j2 => d3.set (i2 * n + j2) (dotAt t u kd n i2 j2)) d2) d).getD
          (i * n + j) 0 =
        if i < c then dotAt t u kd n i j else d.getD (i * n + j) 0 := by
  intro c
  induction c with
  | zero =>
    intro _ d hd i j hi hj
    rw [if_neg (by omega), List.range_zero, List.foldl_nil]
  | succ c ih =>
    intro hc d hd i j hi hj
    rw [List.range_succ, List.foldl_append, List.foldl_cons, List.foldl_nil]
    have hpres : ((List.range c).foldl (fun d2 i2 =>
        (List.range n).foldl
          (fun d3 j2 => d3.set (i2 * n + j2) (dotAt t u kd n i2 j2)) d2) d).length =
        d.length :=
      foldl_length_preserved _
        (fun d2 a => foldl_length_preserved _
          (fun d3 b => List.length_set d3 _ _) _ d2) _ _
    rw [getD_row_update (fun j2 => dotAt t u kd n c j2) n _ (i * n + j)
      (by rw [hpres, hd]; exact two_dim_pos_lt hi hj)]
    by_cases h1 : i = c
    · subst h1
      rw [if_pos ⟨Nat.le_add_right _ _, Nat.add_lt_add_left hj _⟩,
        if_pos (by omega), Nat.add_sub_cancel_left]
    · have hni : ¬(c * n ≤ i * n + j ∧ i * n + j < c * n + n) := by
        rintro ⟨ha, hb⟩
        rcases Nat.lt_or_ge i c with hlt | hge
        · have h3 : (i + 1) * n ≤ c * n := Nat.mul_le_mul_right n hlt
          rw [Nat.succ_mul] at h3
          exact absurd ha (Nat.not_le.mpr
            (Nat.lt_of_lt_of_le (Nat.add_lt_add_left hj _) h3))
        · have h3 : (c + 1) * n ≤ i * n := Nat.mul_le_mul_right n (by omega)
          rw [Nat.succ_mul] at h3
          exact absurd hb (Nat.not_lt.mpr
            (le_trans h3 (Nat.le_add_right _ _)))
      rw [if_neg hni, ih (by omega) d hd i j hi hj]
      by_cases h2 : i < c
      · rw [if_pos h2, if_pos (by omega)]
      · rw [if_neg h2, if_neg (by omega)]

/-- C1: `matmul` requires both operands to be 2-dimensional (failing with a
RankError naming the actual rank otherwise) and agreeing inner dimensions
(failing with a DimensionMismatch naming all four dimensions otherwise); on
success it returns a fresh `m × n` tensor in which every entry `(i, j)` is the
accumulated sum over `k` of `self[i,k] * other[k,j]`; in particular, for
`A : [2,3] = [1,2,3,4,5,6]` and `B : [3,2] = [7,8,9,10,11,12]` the result has
shape `[2,2]` with row-major values `[58, 64, 139, 154]`. -/
theorem matmul_spec :
    (∀ t u : Tensor, t.ndim ≠ 2 → t.matmul u = .error (.rankError t.ndim)) ∧
    (∀ t u : Tensor, t.ndim = 2 → u.ndim ≠ 2 →
        t.matmul u = .error (.rankError u.ndim)) ∧
    (∀ (t u : Tensor) (m kd kd2 n : Nat), t.shapeList = [m, kd] →
        u.shapeList = [kd2, n] → kd ≠ kd2 →
        t.matmul u = .error (.dimMismatch m kd kd2 n)) ∧
    (∀ (t u : Tensor) (m kd n : Nat), t.valid → u.valid →
        t.shapeList = [m, kd] → u.shapeList = [kd, n] →
        ∃ r, t.matmul u = .ok r ∧ r.shapeList = [m, n] ∧ r.valid ∧
          ∀ i j, i < m → j < n → r.get [i, j] = .ok (dotAt t u kd n i j)) ∧
    (Tensor.matmul ⟨⟨[1, 2, 3, 4, 5, 6]⟩, ⟨[2, 3]⟩, [3, 1], 0⟩
        ⟨⟨[7, 8, 9, 10, 11, 12]⟩, ⟨[3, 2]⟩, [2, 1], 0⟩ =
      .ok ⟨⟨[58, 64, 139, 154]⟩, ⟨[2, 2]⟩, [2, 1], 0⟩) := by
  refine ⟨?_, ?_, ?_, ?_, ?_⟩
  · intro t u h
    unfold Tensor.matmul
    rw [if_pos h]
  · intro t u h1 h2
    unfold Tensor.matmul
    rw [if_neg (by simp [h1]), if_pos h2]
  · intro t u m kd kd2 n hts hus hne
    have hndt : t.ndim = 2 := by rw [ndim_eq_shapeList_length, hts]; rfl
    have hndu : u.ndim = 2 := by rw [ndim_eq_shapeList_length, hus]; rfl
    unfold Tensor.matmul
    rw [if_neg (by simp [hndt]), if_neg (by simp [hndu])]
    simp only [hts, hus, List.getD_cons_zero, List.getD_cons_succ]
    rw [if_pos hne]
  · intro t u m kd n ht hu hts hus
    have hndt : t.ndim = 2 := by rw [ndim_eq_shapeList_length, hts]; rfl
    have hndu : u.ndim = 2 := by rw [ndim_eq_shapeList_length, hus]; rfl
    have hzlen : (Tensor.zeros [m, n]).storage.data.length = m * n := by
      show (List.replicate (Shape.nelems ⟨[m, n]⟩) (0 : ℚ)).length = m * n
      rw [List.length_replicate]
      show m * (n * 1) = m * n
      ring
    have hpres : ((List.range m).foldl (fun d i =>
        (List.range n).foldl
          (fun d2 j => d2.set (i * n + j) (dotAt t u kd n i j)) d)
        (Tensor.zeros [m, n]).storage.data).length =
        (Tensor.zeros [m, n]).storage.data.length :=
      foldl_length_preserved _
        (fun d a => foldl_length_preserved _
          (fun d2 b => List.length_set d2 _ _) _ d) _ _
    have hrv : (⟨⟨(List.range m).foldl (fun d i =>
        (List.range n).foldl
          (fun d2 j => d2.set (i * n + j) (dotAt t u kd n i j)) d)
        (Tensor.zeros [m, n]).storage.data⟩,
        Shape.new [m, n], stridesList [m, n], 0⟩ : Tensor).valid := by
      refine ⟨?_, rfl, rfl⟩
      show ((List.range m).foldl (fun d i =>
        (List.range n).foldl
          (fun d2 j => d2.set (i * n + j) (dotAt t u kd n i j)) d)
        (Tensor.zeros [m, n]).storage.data).length = (Shape.new [m, n]).nelems
      rw [hpres]
      show (List.replicate (Shape.new [m, n]).nelems (0 : ℚ)).length = _
      rw [List.length_replicate]
    refine ⟨⟨⟨(List.range m).foldl (fun d i =>
        (List.range n).foldl
          (fun d2 j => d2.set (i * n + j) (dotAt t u kd n i j)) d)
        (Tensor.zeros [m, n]).storage.data⟩,
        Shape.new [m, n], stridesList [m, n], 0⟩, ?_, rfl, hrv, ?_⟩
    · unfold Tensor.matmul
      rw [if_neg (by simp [hndt]), if_neg (by simp [hndu])]
      simp only [hts, hus, List.getD_cons_zero, List.getD_cons_succ]
      rw [if_neg (by simp)]
      exact outer_fold_eq ht hu hts hus m le_rfl
    · intro i j hi hj
      rw [get2_ok hrv rfl hi hj]
      congr 1
      show ((List.range m).foldl (fun d i =>
        (List.range n).foldl
          (fun d2 j => d2.set (i * n + j) (dotAt t u kd n i j)) d)
        (Tensor.zeros [m, n]).storage.data).getD (i * n + j) 0 =
        dotAt t u kd n i j
      rw [getD_outer_update t u m le_rfl _ hzlen i j hi hj, if_pos hi]
  · simp [Tensor.matmul, Tensor.ndim, Shape.ndim, Tensor.shapeList,
      Tensor.zeros, Shape.new, Shape.nelems, Shape.strides, stridesList,
      Storage.zeros, Storage.from_vec, Storage.len, List.range_succ, Tensor.get,
      Tensor.set, Tensor.linear_index, ok_bind, error_bind]
    norm_num

/-- Witness for C1 at concrete inputs. -/
theorem matmul_spec_witness :
    Tensor.matmul (Tensor.zeros [3]) (Tensor.zeros [2, 2]) =
      .error (.rankError 1) ∧
    Tensor.matmul (Tensor.zeros [2, 2]) (Tensor.zeros [3]) =
      .error (.rankError 1) ∧
    Tensor.matmul (Tensor.zeros [2, 3]) (Tensor.zeros [4, 2]) =
      .error (.dimMismatch 2 3 4 2) ∧
    (∃ r, Tensor.matmul ⟨⟨[1, 2, 3, 4, 5, 6]⟩, ⟨[2, 3]⟩, [3, 1], 0⟩
          ⟨⟨[7, 8, 9, 10, 11, 12]⟩, ⟨[3, 2]⟩, [2, 1], 0⟩ = .ok r ∧
        r.shapeList = [2, 2] ∧ r.valid ∧
        ∀ i j, i < 2 → j < 2 → r.get [i, j] =
          .ok (dotAt ⟨⟨[1, 2, 3, 4, 5, 6]⟩, ⟨[2, 3]⟩, [3, 1], 0⟩
            ⟨⟨[7, 8, 9, 10, 11, 12]⟩, ⟨[3, 2]⟩, [2, 1], 0⟩ 3 2 i j)) :=
  ⟨matmul_spec.1 _ _ (by decide),
   matmul_spec.2.1 _ _ (by decide) (by decide),
   matmul_spec.2.2.1 _ _ 2 3 4 2 rfl rfl (by decide),
   matmul_spec.2.2.2.1 _ _ 2 3 2 (by decide) (by decide) rfl rfl⟩

/-! ### C7: Display truncation -/

theorem range_trunc_split (n : Nat) (h : 6 < n) : List.range n =
    ([0,1,2] ++ [3]) ++ (List.range' 4 (n - 7) ++ [n-3, n-2, n-1]) := by
  have h1 := List.range'_append 4 (n-7) 3 1
  rw [show 4 + 1 * (n - 7) = n - 3 by omega, show 3 + (n - 7) = n - 4 by omega] at h1
  have h2 := List.range'_append 0 4 (n-4) 1
  rw [show 0 + 1 * 4 = 4 by omega, show (n-4) + 4 = n by omega] at h2
  have h3 : List.range' (n-3) 3 = [n-3, n-2, n-1] := by
    show (n-3) :: (n-3+1) :: (n-3+1+1) :: [] = [n-3, n-2, n-1]
    rw [show n-3+1 = n-2 by omega, show n-2+1 = n-1 by omega]
  rw [List.range_eq_range', ← h2, ← h1, h3]
  rfl

theorem fmt_step_middle (t : Tensor) (dim : Nat) :
    ∀ (e s : Nat), 4 ≤ s → s + e ≤ t.shapeList.getD dim 0 - 3 →
      6 < t.shapeList.getD dim 0 →
    ∀ st : String × Nat,
      (List.range' s e).foldl (fun st i =>
        if t.shapeList.getD dim 0 > 6 ∧ i = 3 then
          let skip := t.shapeList.getD dim 0 - 6
          (st.1 ++ "..., ", st.2 + skip * t.strides.getD dim 0)
        else if t.shapeList.getD dim 0 > 6 ∧ i > 3 ∧ i < t.shapeList.getD dim 0 - 3 then st
        else
          let child := fmtRec t (dim + 1) st.2
          let str2 := st.1 ++ child.1
          if i < t.shapeList.getD dim 0 - 1 then
            let str3 := str2 ++ ", "
            if dim < t.ndim - 1 then
              (str3 ++ "\n" ++ String.mk (List.replicate (dim + 1) ' '), child.2)
            else (str3, child.2)
          else (str2, child.2)) st = st := by
  intro e
  induction e with
  | zero => intro s _ _ _ st; rfl
  | succ e ih =>
    intro s hs he hsz st
    rw [List.range'_succ, List.foldl_cons]
    rw [if_neg (by omega), if_pos ⟨hsz, by omega, by omega⟩]
    exact ih (s + 1) (by omega) (by omega) hsz st

theorem fmt_trunc (t : Tensor) (dim off : Nat) (hdim : dim < t.ndim)
    (hsz : 6 < t.shapeList.getD dim 0) :
    fmtRec t dim off =
      ("[" ++ joinSep (sepStr t dim) (fmtSeq t dim 3 off).1 ++ sepStr t dim ++
         "..., " ++
         joinSep (sepStr t dim) (fmtSeq t dim 3
           ((fmtSeq t dim 3 off).2 +
             (t.shapeList.getD dim 0 - 6) * t.strides.getD dim 0)).1 ++ "]",
       (fmtSeq t dim 3
         ((fmtSeq t dim 3 off).2 +
           (t.shapeList.getD dim 0 - 6) * t.strides.getD dim 0)).2) := by
  have hnd : ¬ dim ≥ t.ndim := by omega
  have hseq3 : ∀ o, fmtSeq t dim 3 o =
      ((fmtRec t (dim+1) o).1 ::
        (fmtRec t (dim+1) (fmtRec t (dim+1) o).2).1 ::
        (fmtRec t (dim+1) (fmtRec t (dim+1) (fmtRec t (dim+1) o).2).2).1 :: [],
       (fmtRec t (dim+1) (fmtRec t (dim+1) (fmtRec t (dim+1) o).2).2).2) :=
    fun o => rfl
  rw [fmtRec.eq_def, dif_neg hnd]
  dsimp only
  set size := t.shapeList.getD dim 0 with hsizedef
  have ha0 : 0 < size - 1 := by omega
  have ha1 : 1 < size - 1 := by omega
  have ha2 : 2 < size - 1 := by omega
  have hb3 : size - 3 ≠ 3 := by omega
  have hb2 : size - 2 ≠ 3 := by omega
  have hb1 : size - 1 ≠ 3 := by omega
  have hc2 : ¬ (size - 2 < size - 3) := by omega
  have hc1 : ¬ (size - 1 < size - 3) := by omega
  have hp3 : size - 3 < size - 1 := by omega
  have hp2 : size - 2 < size - 1 := by omega
  rw [range_trunc_split _ hsz, List.foldl_append, List.foldl_append, List.foldl_append]
  rw [fmt_step_middle t dim (size - 7) 4 (by omega) (by omega) hsz]
  simp only [List.foldl_cons, List.foldl_nil]
  by_cases hsep : dim < t.ndim - 1 <;>
    simp [hsep, hsz, ha0, ha1, ha2, hb3, hb2, hb1, hc2, hc1, hp3, hp2,
      hseq3, joinSep, sepStr, String.append_assoc]

theorem sepAll_snoc (sep : String) : ∀ (l : List String) (x : String),
    sepAll sep (l ++ [x]) = sepAll sep l ++ (x ++ sep) := by
  intro l
  induction l with
  | nil => intro x; simp [sepAll, String.empty_append, String.append_assoc]
  | cons a l ih =>
    intro x
    simp only [List.cons_append, sepAll, String.append_assoc]
    simp only [List.append_eq]
    rw [ih]

theorem joinSep_snoc (sep : String) : ∀ (l : List String) (x : String),
    joinSep sep (l ++ [x]) = sepAll sep l ++ x := by
  intro l
  induction l with
  | nil => intro x; simp [joinSep, sepAll, String.empty_append]
  | cons a l ih =>
    intro x
    cases l with
    | nil => simp [joinSep, sepAll, String.empty_append, String.append_assoc]
    | cons b l2 =>
      simp only [List.cons_append, joinSep, String.append_assoc, sepAll]
      simp only [List.append_eq]
      rw [show b :: (l2 ++ [x]) = (b :: l2) ++ [x] from rfl, ih]
      simp [sepAll, String.append_assoc]

theorem fmtSeq_snoc (t : Tensor) (dim : Nat) : ∀ (c off : Nat),
    fmtSeq t dim (c + 1) off =
      ((fmtSeq t dim c off).1 ++ [(fmtRec t (dim + 1) (fmtSeq t dim c off).2).1],
       (fmtRec t (dim + 1) (fmtSeq t dim c off).2).2) := by
  intro c
  induction c with
  | zero => intro off; rfl
  | succ c ih =>
    intro off
    have h1 : fmtSeq t dim (c + 1 + 1) off =
        ((fmtRec t (dim + 1) off).1 ::
          (fmtSeq t dim (c + 1) (fmtRec t (dim + 1) off).2).1,
         (fmtSeq t dim (c + 1) (fmtRec t (dim + 1) off).2).2) := rfl
    have h2 : fmtSeq t dim (c + 1) off =
        ((fmtRec t (dim + 1) off).1 ::
          (fmtSeq t dim c (fmtRec t (dim + 1) off).2).1,
         (fmtSeq t dim c (fmtRec t (dim + 1) off).2).2) := rfl
    rw [h1, ih, h2]
    simp [List.cons_append]

theorem fmt_loop_plain (t : Tensor) (dim off : Nat) (size stride : Nat)
    (hsz : ¬ 6 < size) :
    ∀ c, c + 1 ≤ size →
    (List.range c).foldl (fun st i =>
      if size > 6 ∧ i = 3 then
        let skip := size - 6
        (st.1 ++ "..., ", st.2 + skip * stride)
      else if size > 6 ∧ i > 3 ∧ i < size - 3 then st
      else
        let child := fmtRec t (dim + 1) st.2
        let str2 := st.1 ++ child.1
        if i < size - 1 then
          let str3 := str2 ++ ", "
          if dim < t.ndim - 1 then
            (str3 ++ "\n" ++ String.mk (List.replicate (dim + 1) ' '), child.2)
          else (str3, child.2)
        else (str2, child.2)) ("", off) =
      (sepAll (sepStr t dim) (fmtSeq t dim c off).1, (fmtSeq t dim c off).2) := by
  intro c
  induction c with
  | zero => intro _; rfl
  | succ c ih =>
    intro hc
    rw [List.range_succ, List.foldl_append, ih (by omega), List.foldl_cons,
      List.foldl_nil]
    rw [if_neg (by omega), if_neg (by omega), if_pos (show c < size - 1 by omega)]
    rw [fmtSeq_snoc, sepAll_snoc]
    by_cases hsep : dim < t.ndim - 1 <;>
      simp [sepStr, hsep, String.append_assoc]

theorem fmt_no_trunc (t : Tensor) (dim off : Nat) (hdim : dim < t.ndim)
    (hsz6 : t.shapeList.getD dim 0 ≤ 6) :
    fmtRec t dim off =
      ("[" ++ joinSep (sepStr t dim) (fmtSeq t dim (t.shapeList.getD dim 0) off).1 ++ "]",
       (fmtSeq t dim (t.shapeList.getD dim 0) off).2) := by
  have hnd : ¬ dim ≥ t.ndim := by omega
  rw [fmtRec.eq_def, dif_neg hnd]
  dsimp only
  cases hs : t.shapeList.getD dim 0 with
  | zero =>
    simp [fmtSeq, joinSep, List.range_zero, List.foldl_nil]
  | succ c =>
    have hc6 : c + 1 ≤ 6 := by omega
    rw [List.range_succ, List.foldl_append,
      fmt_loop_plain t dim off (c + 1) (t.strides.getD dim 0) (by omega) c (by omega),
      List.foldl_cons, List.foldl_nil]
    rw [if_neg (by omega), if_neg (by omega),
      if_neg (show ¬ c < (c + 1) - 1 by omega)]
    rw [fmtSeq_snoc, joinSep_snoc]

theorem fmtRec_base (t : Tensor) (dim off : Nat) (h : dim ≥ t.ndim) :
    fmtRec t dim off = (fmtScalar (t.storage.data.getD off 0), off + 1) := by
  rw [fmtRec.eq_def, dif_pos h]


/-- C7: in the Display rendering, a dimension whose size exceeds 6 renders only
its first 3 and last 3 elements separated by the literal ellipsis marker
`"..., "`; the elements strictly between the shown head and tail are skipped
entirely — the renderer advances the offset past them without recursing into
(or formatting) any of them, as the right-hand side below shows: only six child
renderings occur, with a bare offset jump of `(size-6) * stride` in between.  A
dimension of size 6 or less renders all of its elements.  Concretely, a shape
[10] tensor renders `[d0, d1, d2, ..., d7, d8, d9]`. -/
theorem display_truncation_spec :
    (∀ (t : Tensor) (dim off : Nat), dim < t.ndim →
        6 < t.shapeList.getD dim 0 →
        fmtRec t dim off =
          ("[" ++ joinSep (sepStr t dim) (fmtSeq t dim 3 off).1 ++ sepStr t dim ++
             "..., " ++
             joinSep (sepStr t dim) (fmtSeq t dim 3
               ((fmtSeq t dim 3 off).2 +
                 (t.shapeList.getD dim 0 - 6) * t.strides.getD dim 0)).1 ++ "]",
           (fmtSeq t dim 3
             ((fmtSeq t dim 3 off).2 +
               (t.shapeList.getD dim 0 - 6) * t.strides.getD dim 0)).2)) ∧
    (∀ (t : Tensor) (dim off : Nat), dim < t.ndim →
        t.shapeList.getD dim 0 ≤ 6 →
        fmtRec t dim off =
          ("[" ++ joinSep (sepStr t dim)
              (fmtSeq t dim (t.shapeList.getD dim 0) off).1 ++ "]",
           (fmtSeq t dim (t.shapeList.getD dim 0) off).2)) ∧
    Tensor.display ⟨⟨[1, 2, 3, 4, 5, 6, 7, 8, 9, 10]⟩, ⟨[10]⟩, [1], 0⟩ =
      "Tensor([1, 2, 3, ..., 8, 9, 10], shape=[10])" := by
  refine ⟨fmt_trunc, fmt_no_trunc, ?_⟩
  have hbase : ∀ off,
      fmtRec ⟨⟨[1, 2, 3, 4, 5, 6, 7, 8, 9, 10]⟩, ⟨[10]⟩, [1], 0⟩ 1 off =
        (fmtScalar ((⟨⟨[1, 2, 3, 4, 5, 6, 7, 8, 9, 10]⟩, ⟨[10]⟩, [1], 0⟩ :
            Tensor).storage.data.getD off 0), off + 1) :=
    fun off => fmtRec_base _ 1 off (by decide)
  rw [Tensor.display, fmt_trunc _ 0 0 (by decide) (by decide)]
  simp only [fmtSeq, hbase]
  decide

/-- Witness for C7 at concrete tensors. -/
theorem display_truncation_spec_witness :
    (fmtRec ⟨⟨[1, 2, 3, 4, 5, 6, 7, 8, 9, 10]⟩, ⟨[10]⟩, [1], 0⟩ 0 0 =
      ("[" ++
         joinSep (sepStr ⟨⟨[1, 2, 3, 4, 5, 6, 7, 8, 9, 10]⟩, ⟨[10]⟩, [1], 0⟩ 0)
           (fmtSeq ⟨⟨[1, 2, 3, 4, 5, 6, 7, 8, 9, 10]⟩, ⟨[10]⟩, [1], 0⟩ 0 3 0).1 ++
         sepStr ⟨⟨[1, 2, 3, 4, 5, 6, 7, 8, 9, 10]⟩, ⟨[10]⟩, [1], 0⟩ 0 ++ "..., " ++
         joinSep (sepStr ⟨⟨[1, 2, 3, 4, 5, 6, 7, 8, 9, 10]⟩, ⟨[10]⟩, [1], 0⟩ 0)
           (fmtSeq ⟨⟨[1, 2, 3, 4, 5, 6, 7, 8, 9, 10]⟩, ⟨[10]⟩, [1], 0⟩ 0 3
             ((fmtSeq ⟨⟨[1, 2, 3, 4, 5, 6, 7, 8, 9, 10]⟩, ⟨[10]⟩, [1], 0⟩ 0 3 0).2 +
               ((⟨⟨[1, 2, 3, 4, 5, 6, 7, 8, 9, 10]⟩, ⟨[10]⟩, [1], 0⟩ :
                   Tensor).shapeList.getD 0 0 - 6) *
                 (⟨⟨[1, 2, 3, 4, 5, 6, 7, 8, 9, 10]⟩, ⟨[10]⟩, [1], 0⟩ :
                   Tensor).strides.getD 0 0)).1 ++ "]",
       (fmtSeq ⟨⟨[1, 2, 3, 4, 5, 6, 7, 8, 9, 10]⟩, ⟨[10]⟩, [1], 0⟩ 0 3
         ((fmtSeq ⟨⟨[1, 2, 3, 4, 5, 6, 7, 8, 9, 10]⟩, ⟨[10]⟩, [1], 0⟩ 0 3 0).2 +
           ((⟨⟨[1, 2, 3, 4, 5, 6, 7, 8, 9, 10]⟩, ⟨[10]⟩, [1], 0⟩ :
               Tensor).shapeList.getD 0 0 - 6) *
             (⟨⟨[1, 2, 3, 4, 5, 6, 7, 8, 9, 10]⟩, ⟨[10]⟩, [1], 0⟩ :
               Tensor).strides.getD 0 0)).2)) ∧
    (fmtRec ⟨⟨[1, 2, 3]⟩, ⟨[3]⟩, [1], 0⟩ 0 0 =
      ("[" ++
         joinSep (sepStr ⟨⟨[1, 2, 3]⟩, ⟨[3]⟩, [1], 0⟩ 0)
           (fmtSeq ⟨⟨[1, 2, 3]⟩, ⟨[3]⟩, [1], 0⟩ 0
             ((⟨⟨[1, 2, 3]⟩, ⟨[3]⟩, [1], 0⟩ : Tensor).shapeList.getD 0 0) 0).1 ++
         "]",
       (fmtSeq ⟨⟨[1, 2, 3]⟩, ⟨[3]⟩, [1], 0⟩ 0
         ((⟨⟨[1, 2, 3]⟩, ⟨[3]⟩, [1], 0⟩ : Tensor).shapeList.getD 0 0) 0).2)) :=
  ⟨display_truncation_spec.1 ⟨⟨[1, 2, 3, 4, 5, 6, 7, 8, 9, 10]⟩, ⟨[10]⟩, [1], 0⟩
     0 0 (by decide) (by decide),
   display_truncation_spec.2.1 ⟨⟨[1, 2, 3]⟩, ⟨[3]⟩, [1], 0⟩ 0 0
     (by decide) (by decide)⟩

end Delta
